import Mathlib

/-!
Verification of the internal-linking engine and publishing services of the
Agent-Auto-Seo-V2 repository (services/content-generator).

Strings are modelled as `List Char`; floating-point vector components are
modelled as `ℚ` (inputs) with similarity scores in `ℝ`; UUIDs are modelled
as `Nat`.

The internal-linker engine modules (`app/internal_linker/basic_linker.py`,
`semantic_linker.py`, `anchor_rewriter.py`) are not present in the source
tree (only their data models and tests are), so those operations are
modelled from the specification; each such definition carries a doc
comment starting with "Modelled from the spec".  The publishing
sanitizer (`app/services/publishing_service.py`) and the Google indexer
(`app/services/google_indexer.py`) are translated directly from the
source.
-/

namespace AutoSeo

/-! ### String primitives -/

/-- Lower-case a string (list of characters), as Python `str.lower()` on the
ASCII fragment relevant here. -/
def lowerStr (s : List Char) : List Char := s.map Char.toLower

/-- Test whether `pat` is an initial segment of `s`
(Python `str.startswith`). -/
def leadsWith : List Char → List Char → Bool
  | [], _ => true
  | _ :: _, [] => false
  | a :: as, b :: bs => if a = b then leadsWith as bs else false

/-- Test whether `kw` occurs case-insensitively in `content` starting at
character index `i`. -/
def matchesAt (content kw : List Char) (i : Nat) : Bool :=
  leadsWith (lowerStr kw) (lowerStr (content.drop i))

/-- Scan for the first case-insensitive occurrence of `kw` in `content` at
an index ≥ `i`; `fuel` bounds the number of scanned positions. -/
def findFirstFuel (content kw : List Char) : Nat → Nat → Option Nat
  | 0, _ => none
  | fuel + 1, i =>
      if content.length < i + kw.length then none
      else if matchesAt content kw i then some i
      else findFirstFuel content kw fuel (i + 1)

/-- First case-insensitive occurrence of `kw` in `content`
(Python `content.lower().find(kw.lower())`, with `none` for -1). -/
def findFirst (content kw : List Char) : Option Nat :=
  findFirstFuel content kw (content.length + 1) 0

/-- Number of (possibly overlapping) occurrences of `m` as a contiguous
substring of `s` (exact, case-sensitive — Python `s.count(m)` up to
overlap, used only for markers that cannot overlap themselves). -/
def countSubstr (s m : List Char) : Nat :=
  match s with
  | [] => 0
  | c :: rest => (if leadsWith m (c :: rest) then 1 else 0) + countSubstr rest m

/-- The opening-anchor marker counted by the tests: `<a href=`. -/
def anchorMark : List Char := "<a href=".data

/-- The full opening anchor tag `<a href="url">`. -/
def anchorOpen (url : List Char) : List Char :=
  "<a href=\"".data ++ url ++ "\">".data

/-- The closing anchor tag `</a>`. -/
def anchorClose : List Char := "</a>".data

/-- Modelled from the spec: `AnchorTextRewriter._simple_link_insertion`
(file `app/internal_linker/anchor_rewriter.py`, absent from the source
tree).  Case-insensitive search for the first occurrence of `kw` in
`sentence`; wrap exactly that occurrence in an anchor tag pointing at
`url`, preserving the original casing of the matched text, leaving the
rest of the sentence untouched; if the keyword does not occur, the
sentence is returned unchanged. -/
def simple_link_insertion (sentence kw url : List Char) : List Char :=
  match findFirst sentence kw with
  | none => sentence
  | some i =>
      sentence.take i ++ anchorOpen url ++ (sentence.drop i).take kw.length
        ++ anchorClose ++ sentence.drop (i + kw.length)

/-! ### Lemmas about the string primitives -/

theorem leadsWith_self_append (p y : List Char) : leadsWith p (p ++ y) = true := by
  induction p with
  | nil => rfl
  | cons a as ih => simp [leadsWith, ih]

theorem countSubstr_cons (c : Char) (rest m : List Char) :
    countSubstr (c :: rest) m
      = (if leadsWith m (c :: rest) then 1 else 0) + countSubstr rest m := rfl

/-- Occurrences of a marker starting with `c` are unaffected by a prefix
free of `c`. -/
theorem countSubstr_append_of_head_notMem (a b : List Char) (c : Char)
    (m : List Char) (h : c ∉ a) :
    countSubstr (a ++ b) (c :: m) = countSubstr b (c :: m) := by
  induction a with
  | nil => rfl
  | cons x a ih =>
      have hcx : c ≠ x := fun hc => h (hc ▸ List.mem_cons_self x a)
      have hx : x ∉ a → True := fun _ => trivial
      have hna : c ∉ a := fun hc => h (List.mem_cons_of_mem x hc)
      rw [List.cons_append, countSubstr_cons]
      have : leadsWith (c :: m) (x :: (a ++ b)) = false := by
        simp [leadsWith, fun hh : c = x => hcx hh]
      rw [this, ih hna]
      simp

theorem countSubstr_eq_zero_of_notMem (s : List Char) (c : Char) (m : List Char)
    (h : c ∉ s) : countSubstr s (c :: m) = 0 := by
  have := countSubstr_append_of_head_notMem s [] c m h
  simpa using this

theorem countSubstr_pos_of_leads (s m : List Char) (hs : s ≠ [])
    (h : leadsWith m s = true) : 0 < countSubstr s m := by
  cases s with
  | nil => exact absurd rfl hs
  | cons c rest =>
      rw [countSubstr_cons, h]
      simp

/-- Characterization of `findFirstFuel`: a returned index is a
case-insensitive match and every earlier candidate index fails. -/
theorem findFirstFuel_spec (content kw : List Char) :
    ∀ fuel i j, findFirstFuel content kw fuel i = some j →
      i ≤ j ∧ matchesAt content kw j = true ∧
        ∀ p, i ≤ p → p < j → matchesAt content kw p = false := by
  intro fuel
  induction fuel with
  | zero => intro i j hf; exact absurd hf (by simp [findFirstFuel])
  | succ n ih =>
      intro i j hf
      rw [findFirstFuel] at hf
      by_cases hb : content.length < i + kw.length
      · simp [hb] at hf
      · simp [hb] at hf
        by_cases hm : matchesAt content kw i = true
        · simp [hm] at hf
          subst hf
          exact ⟨Nat.le_refl _, hm, fun p hp1 hp2 =>
            absurd (Nat.lt_of_le_of_lt hp1 hp2) (Nat.lt_irrefl _)⟩
        · simp [hm] at hf
          obtain ⟨h1, h2, h3⟩ := ih (i + 1) j hf
          refine ⟨by omega, h2, fun p hp1 hp2 => ?_⟩
          by_cases hpi : p = i
          · subst hpi; exact Bool.eq_false_iff.mpr hm
          · exact h3 p (by omega) hp2

/-- The marker `<a href=` occurs exactly once in
`A ++ <a href="u"> ++ M ++ </a> ++ B` when none of the surrounding pieces
contains the character `<`. -/
theorem countSubstr_anchor (A M B u : List Char)
    (hA : ('<') ∉ A) (hM : ('<') ∉ M) (hB : ('<') ∉ B) (hu : ('<') ∉ u) :
    countSubstr (A ++ anchorOpen u ++ M ++ anchorClose ++ B) anchorMark = 1 := by
  have hmark : anchorMark = '<' :: "a href=".data := rfl
  simp only [List.append_assoc]
  rw [hmark, countSubstr_append_of_head_notMem A _ '<' _ hA]
  have hdecomp : anchorOpen u ++ (M ++ (anchorClose ++ B))
      = '<' :: ("a href=".data ++ ('"' :: (u ++ ("\">".data ++ (M ++ (anchorClose ++ B)))))) := by
    simp [anchorOpen]
  rw [hdecomp, countSubstr_cons]
  have hlead : leadsWith ('<' :: "a href=".data)
      ('<' :: ("a href=".data ++ ('"' :: (u ++ ("\">".data ++ (M ++ (anchorClose ++ B))))))) = true := by
    have := leadsWith_self_append ('<' :: "a href=".data)
      ('"' :: (u ++ ("\">".data ++ (M ++ (anchorClose ++ B)))))
    simpa using this
  rw [hlead]
  have hmid : ('<')
      ∉ "a href=".data ++ ('"' :: (u ++ "\">".data)) := by
    simp only [List.mem_append, List.mem_cons]
    push_neg
    exact ⟨by decide, by decide, hu, by decide⟩
  have hrearr : "a href=".data ++ ('"' :: (u ++ ("\">".data ++ (M ++ (anchorClose ++ B)))))
      = ("a href=".data ++ ('"' :: (u ++ "\">".data))) ++ (M ++ (anchorClose ++ B)) := by
    simp [List.append_assoc]
  rw [hrearr, countSubstr_append_of_head_notMem _ _ '<' _ hmid,
    countSubstr_append_of_head_notMem M _ '<' _ hM]
  have hclose : anchorClose ++ B = '<' :: ("/a>".data ++ B) := by
    simp [anchorClose]
  rw [hclose, countSubstr_cons]
  have hnolead : leadsWith ('<' :: "a href=".data) ('<' :: ("/a>".data ++ B)) = false := by
    simp [leadsWith]
  rw [hnolead]
  have hrest : ('<') ∉ "/a>".data ++ B := by
    simp only [List.mem_append]
    push_neg
    exact ⟨by decide, hB⟩
  rw [countSubstr_eq_zero_of_notMem _ '<' _ hrest]
  simp

/-- Claim C1: `_simple_link_insertion` finds the first case-insensitive
occurrence of the keyword in the sentence, wraps exactly that occurrence in
an anchor tag pointing at the target URL while preserving the original
casing of the matched text, and leaves the rest of the sentence unchanged;
in particular (for sentences and URLs without a literal `<`, so that anchor
tags can be counted textually) the result contains exactly one anchor tag
even when the keyword occurs more than once. -/
theorem simple_link_insertion_spec (s k u : List Char) (i : Nat)
    (h : findFirst s k = some i) (hs : ('<') ∉ s) (hu : ('<') ∉ u) :
    simple_link_insertion s k u
        = s.take i ++ anchorOpen u ++ (s.drop i).take k.length
            ++ anchorClose ++ s.drop (i + k.length)
      ∧ matchesAt s k i = true
      ∧ (∀ p, p < i → matchesAt s k p = false)
      ∧ countSubstr (simple_link_insertion s k u) anchorMark = 1 := by
  have heq : simple_link_insertion s k u
      = s.take i ++ anchorOpen u ++ (s.drop i).take k.length
          ++ anchorClose ++ s.drop (i + k.length) := by
    unfold simple_link_insertion
    rw [h]
  obtain ⟨-, hm, hfirst⟩ := findFirstFuel_spec s k (s.length + 1) 0 i h
  refine ⟨heq, hm, fun p hp => hfirst p (Nat.zero_le p) hp, ?_⟩
  rw [heq]
  exact countSubstr_anchor _ _ _ _
    (fun hc => hs (List.take_subset i s hc))
    (fun hc => hs (List.drop_subset i s (List.take_subset _ _ hc)))
    (fun hc => hs (List.drop_subset _ s hc)) hu

/-- Witness for C1 at the inputs of the repository test
`test_simple_link_insertion_case_insensitive` (keyword occurring twice,
with casing differing from the keyword). -/
theorem simple_link_insertion_spec_witness :
    findFirst ("Learn about seo and Seo techniques".data) ("SEO".data) = some 12
      ∧ ('<') ∉ "Learn about seo and Seo techniques".data
      ∧ ('<') ∉ "https://example.com/seo".data
      ∧ countSubstr
          (simple_link_insertion ("Learn about seo and Seo techniques".data)
            ("SEO".data) ("https://example.com/seo".data)) anchorMark = 1 :=
  ⟨by decide, by decide, by decide,
    (simple_link_insertion_spec _ _ _ 12 (by decide) (by decide) (by decide)).2.2.2⟩

/-! ### Lexical keyword matching (`BasicInternalLinker`) -/

/-- Collect every index ≥ `i` at which `kw` occurs case-insensitively in
`content`; `fuel` bounds the number of scanned positions. -/
def scanFuel (content kw : List Char) : Nat → Nat → List Nat
  | 0, _ => []
  | fuel + 1, i =>
      if content.length < i + kw.length then []
      else (if matchesAt content kw i then [i] else [])
        ++ scanFuel content kw fuel (i + 1)

/-- One lexical keyword match: a character position in the content and the
surrounding text context. -/
structure KeywordMatch where
  position : Nat
  context : List Char
deriving DecidableEq

/-- Context window of ±40 characters around the occurrence at `p`,
truncated at the content boundaries
(`content[max(0, p-40) : min(len, p+len(kw)+40)]`). -/
def contextWindow (content kw : List Char) (p : Nat) : List Char :=
  (content.drop (p - 40)).take (p + kw.length + 40 - (p - 40))

/-- Modelled from the spec: `BasicInternalLinker._find_keyword_matches`
(file `app/internal_linker/basic_linker.py`, absent from the source tree).
Scans the content left to right and reports every case-insensitive
occurrence of the keyword, each as a `{position, context}` record with a
±40-character context window. -/
def findKeywordMatches (content kw : List Char) : List KeywordMatch :=
  (scanFuel content kw (content.length + 1) 0).map
    (fun p => ⟨p, contextWindow content kw p⟩)

/-- The left-to-right scan collects exactly the match positions in
`[i, content.length - kw.length]`, in increasing order. -/
theorem scanFuel_eq (content kw : List Char) :
    ∀ fuel i, content.length + 1 - i ≤ fuel →
      scanFuel content kw fuel i
        = (List.range' i (content.length + 1 - kw.length - i)).filter
            (fun p => matchesAt content kw p) := by
  intro fuel
  induction fuel with
  | zero =>
      intro i hi
      have h0 : content.length + 1 - kw.length - i = 0 := by omega
      rw [h0]
      rfl
  | succ n ih =>
      intro i hi
      rw [scanFuel]
      by_cases hb : content.length < i + kw.length
      · have h0 : content.length + 1 - kw.length - i = 0 := by omega
        rw [h0]
        simp [hb]
      · have hm : content.length + 1 - kw.length - i
            = (content.length + 1 - kw.length - (i + 1)) + 1 := by omega
        rw [hm, List.range'_succ i _ 1, List.filter_cons,
          ih (i + 1) (by omega)]
        by_cases hmat : matchesAt content kw i = true
        · simp [hb, hmat]
        · simp [hb, hmat]

/-- Claim C3: `_find_keyword_matches` reports every case-insensitive
occurrence of the keyword (not just the first): its output is exactly one
`{position, context}` record per matching position, positions in
increasing order, with the bounded ±40-character context window; in
particular the test content with three occurrences of "SEO" yields exactly
3 positional matches. -/
theorem find_keyword_matches_spec :
    (∀ (content kw : List Char),
        findKeywordMatches content kw
          = ((List.range (content.length + 1 - kw.length)).filter
              (fun p => matchesAt content kw p)).map
              (fun p => ⟨p, contextWindow content kw p⟩))
      ∧ (findKeywordMatches
          ("This is about SEO optimization and SEO best practices for better SEO results.".data)
          ("SEO".data)).length = 3 := by
  constructor
  · intro content kw
    unfold findKeywordMatches
    rw [scanFuel_eq content kw (content.length + 1) 0 (by omega),
      List.range_eq_range' _]
    simp
  · decide

/-! ### Semantic similarity (`SemanticInternalLinker`) -/

/-- Dot product of two vectors; components are modelled with exact
rationals in place of floating-point numbers. -/
def dotQ : List ℚ → List ℚ → ℚ
  | a :: as, b :: bs => a * b + dotQ as bs
  | _, _ => 0

theorem dotQ_cons (a b : ℚ) (as bs : List ℚ) :
    dotQ (a :: as) (b :: bs) = a * b + dotQ as bs := rfl

theorem dotQ_self_nonneg (v : List ℚ) : 0 ≤ dotQ v v := by
  induction v with
  | nil => exact le_refl 0
  | cons a as ih =>
      rw [dotQ_cons]
      have ha : 0 ≤ a * a := mul_self_nonneg a
      linarith

/-- Modelled from the spec: `cosine_similarity` in
`app/internal_linker/semantic_linker.py` (absent from the source tree).
Standard dot-product-over-norms; when either input vector is empty the
result is 0.0, returned as a defined value rather than raising a
division-by-zero error. -/
noncomputable def cosine_similarity (v1 v2 : List ℚ) : ℝ :=
  if v1 = [] ∨ v2 = [] then 0
  else ((dotQ v1 v2 : ℚ) : ℝ)
    / (Real.sqrt ((dotQ v1 v1 : ℚ) : ℝ) * Real.sqrt ((dotQ v2 v2 : ℚ) : ℝ))

/-- Counterexample to C2 as stated: the claim asserts
`cosine_similarity(v, v) = 1` for every vector `v`, but the zero vector
(nonempty, with zero norm) yields 0, not 1. -/
theorem cosine_similarity_self_zero_vector :
    ¬ (cosine_similarity [(0 : ℚ)] [(0 : ℚ)] = 1) := by
  norm_num [cosine_similarity, dotQ]

/-- Claim C2 (amended): cosine similarity is the dot product divided by the
product of the norms, and satisfies: self-similarity is exactly 1 for
every nonempty vector of nonzero norm (not for the zero vector, see the
counterexample); orthogonal vectors (zero dot product) yield 0; an empty
vector on either side yields exactly 0 as a value, symmetrically in both
arguments. -/
theorem cosine_similarity_spec (v w : List ℚ) :
    (v ≠ [] → dotQ v v ≠ 0 → cosine_similarity v v = 1)
      ∧ (dotQ v w = 0 → cosine_similarity v w = 0)
      ∧ cosine_similarity [] w = 0
      ∧ cosine_similarity v [] = 0 := by
  refine ⟨?_, ?_, ?_, ?_⟩
  · intro hv hd
    have hcond : ¬ (v = [] ∨ v = []) := by simpa using hv
    unfold cosine_similarity
    rw [if_neg hcond]
    have hnn : (0 : ℝ) ≤ ((dotQ v v : ℚ) : ℝ) := by
      exact_mod_cast dotQ_self_nonneg v
    rw [Real.mul_self_sqrt hnn]
    have hne : ((dotQ v v : ℚ) : ℝ) ≠ 0 := by exact_mod_cast hd
    exact div_self hne
  · intro hd
    unfold cosine_similarity
    by_cases hc : v = [] ∨ w = []
    · rw [if_pos hc]
    · rw [if_neg hc, hd]
      simp
  · unfold cosine_similarity
    simp
  · unfold cosine_similarity
    simp

/-- Witness for C2 at the inputs of the repository test
`test_cosine_similarity`: a unit vector against itself and against an
orthogonal unit vector. -/
theorem cosine_similarity_spec_witness :
    (([(1 : ℚ), 0, 0] : List ℚ) ≠ []
        ∧ dotQ [(1 : ℚ), 0, 0] [(1 : ℚ), 0, 0] ≠ 0
        ∧ cosine_similarity [(1 : ℚ), 0, 0] [(1 : ℚ), 0, 0] = 1)
      ∧ (dotQ [(1 : ℚ), 0, 0] [(0 : ℚ), 1, 0] = 0
        ∧ cosine_similarity [(1 : ℚ), 0, 0] [(0 : ℚ), 1, 0] = 0) :=
  ⟨⟨by simp, by simp [dotQ],
      (cosine_similarity_spec [(1 : ℚ), 0, 0] [(0 : ℚ), 1, 0]).1
        (by simp) (by simp [dotQ])⟩,
    ⟨by simp [dotQ],
      (cosine_similarity_spec [(1 : ℚ), 0, 0] [(0 : ℚ), 1, 0]).2.1
        (by simp [dotQ])⟩⟩

/-! ### Embedding provider (`SemanticInternalLinker.encode`) -/

/-- Deterministic hash of a text, used by the mock embedding backend. -/
def textHash (t : List Char) : Nat :=
  t.foldl (fun h c => (h * 31 + c.toNat) % 1000003) 7

/-- Modelled from the spec: `SemanticInternalLinker.encode` backed by the
deterministic mock embedding provider (`semantic_linker.py`, absent from
the source tree).  Produces a deterministic 384-component vector for every
input text. -/
def encode (t : List Char) : List ℚ :=
  (List.range 384).map
    (fun i => (((textHash t + i) % 1000 : ℕ) : ℚ) / 1000)

/-- Claim C4: `encode` returns a vector of exactly 384 components for every
input text, including the empty string, independent of the input length. -/
theorem encode_length (t : List Char) : (encode t).length = 384 := by
  simp [encode]

/-! ### Related-article retrieval (`SemanticInternalLinker`) -/

/-- A corpus article as supplied by the Corpus Provider
(`{id, title, content, target_keywords, embedding}`). -/
structure Article where
  id : Nat
  title : List Char
  content : List Char
  target_keywords : List (List Char)
  embedding : List ℚ

/-- A scored neighbor of the query article
(`app/internal_linker/models.py`, `RelatedArticle`). -/
structure RelatedArticle where
  article_id : Nat
  title : List Char
  url : Option (List Char)
  similarity : ℝ
  embedding : Option (List ℚ)
  target_keywords : Option (List (List Char))

/-- A corpus article together with its corpus iteration index and its
cosine similarity to the query content. -/
structure ScoredArticle where
  idx : Nat
  article : Article
  similarity : ℝ

/-- Every corpus article scored against the embedded query content, in
corpus iteration order. -/
noncomputable def scoredCorpus (corpus : List Article) (content : List Char) :
    List ScoredArticle :=
  corpus.enum.map
    (fun p => ⟨p.1, p.2, cosine_similarity (encode content) p.2.embedding⟩)

/-- Ordering used to rank scored articles: higher similarity first, ties
broken by the (stable) corpus iteration index. -/
def scoredKeyRel (a b : ScoredArticle) : Prop :=
  b.similarity < a.similarity ∨ (a.similarity = b.similarity ∧ a.idx ≤ b.idx)

noncomputable instance : DecidableRel scoredKeyRel :=
  fun _ _ => Classical.propDecidable _

instance : IsTotal ScoredArticle scoredKeyRel :=
  ⟨fun a b => by
    rcases lt_trichotomy a.similarity b.similarity with h | h | h
    · exact Or.inr (Or.inl h)
    · rcases Nat.le_total a.idx b.idx with hi | hi
      · exact Or.inl (Or.inr ⟨h, hi⟩)
      · exact Or.inr (Or.inr ⟨h.symm, hi⟩)
    · exact Or.inl (Or.inl h)⟩

instance : IsTrans ScoredArticle scoredKeyRel :=
  ⟨fun a b c hab hbc => by
    rcases hab with hab | ⟨hab, hab2⟩
    · rcases hbc with hbc | ⟨hbc, _⟩
      · exact Or.inl (lt_trans hbc hab)
      · exact Or.inl (hbc ▸ hab)
    · rcases hbc with hbc | ⟨hbc, hbc2⟩
      · exact Or.inl (hab ▸ hbc)
      · exact Or.inr ⟨hab.trans hbc, le_trans hab2 hbc2⟩⟩

/-- The threshold-filtered, similarity-ranked scored corpus. -/
noncomputable def sortedScored (corpus : List Article) (content : List Char)
    (threshold : ℝ) : List ScoredArticle :=
  List.insertionSort scoredKeyRel
    ((scoredCorpus corpus content).filter
      (fun r => decide (threshold ≤ r.similarity)))

/-- Projection of a scored corpus article to the `RelatedArticle` result
record; the stored embedding and keywords are passed through unchanged. -/
def toRelated (s : ScoredArticle) : RelatedArticle :=
  ⟨s.article.id, s.article.title, none, s.similarity,
    some s.article.embedding, some s.article.target_keywords⟩

/-- Modelled from the spec: `SemanticInternalLinker.find_related_articles`
(`semantic_linker.py`, absent from the source tree).  Embeds the new
content, scores every corpus article by cosine similarity, keeps those
with similarity ≥ threshold, and ranks them by similarity descending with
ties in corpus iteration order. -/
noncomputable def find_related_articles (corpus : List Article)
    (content : List Char) (threshold : ℝ) : List RelatedArticle :=
  (sortedScored corpus content threshold).map toRelated

/-- Claim C5: `find_related_articles` keeps exactly the corpus articles
whose cosine similarity to the embedded new content is ≥ threshold (an
inclusive lower bound: the filtered scored corpus, up to permutation) and
returns them sorted by similarity descending, with ties broken by the
stable corpus iteration order (the underlying scored list is sorted by
the similarity-then-corpus-index ordering). -/
theorem find_related_articles_spec (corpus : List Article)
    (content : List Char) (threshold : ℝ) :
    List.Sorted (fun a b : RelatedArticle => b.similarity ≤ a.similarity)
        (find_related_articles corpus content threshold)
      ∧ (find_related_articles corpus content threshold).Perm
          (((scoredCorpus corpus content).filter
              (fun r => decide (threshold ≤ r.similarity))).map toRelated)
      ∧ List.Sorted scoredKeyRel (sortedScored corpus content threshold) := by
  have hsorted : List.Sorted scoredKeyRel (sortedScored corpus content threshold) :=
    List.sorted_insertionSort scoredKeyRel _
  refine ⟨?_, ?_, hsorted⟩
  · exact List.Pairwise.map toRelated
      (fun a b hab => by
        rcases hab with h | ⟨h, _⟩
        · exact le_of_lt h
        · exact le_of_eq h.symm) hsorted
  · exact List.Perm.map toRelated (List.perm_insertionSort scoredKeyRel _)

/-! ### Anchor rewriting batch (`AnchorTextRewriter`) -/

/-- One batch input for `rewrite_multiple_sentences`:
`{sentence, keyword, target_url}`. -/
structure RewriteItem where
  sentence : List Char
  keyword : List Char
  target_url : List Char
deriving DecidableEq

/-- One batch output: `{original, rewritten}`. -/
structure RewriteResult where
  original : List Char
  rewritten : List Char
deriving DecidableEq

/-- Modelled from the spec: `AnchorTextRewriter.rewrite_sentence_with_link`
(`anchor_rewriter.py`, absent from the source tree).  The AI rewrite
provider is an injected parameter that may fail (`none`); a failure falls
back to the deterministic `_simple_link_insertion` for that item. -/
def rewrite_sentence_with_link (ai : RewriteItem → Option (List Char))
    (it : RewriteItem) : List Char :=
  match ai it with
  | some r => r
  | none => simple_link_insertion it.sentence it.keyword it.target_url

/-- Modelled from the spec: `AnchorTextRewriter.rewrite_multiple_sentences`
(`anchor_rewriter.py`, absent from the source tree).  Batch wrapper
producing one `{original, rewritten}` record per input item; an AI failure
on one item falls back to the deterministic insertion for that item only
and never aborts the rest of the batch. -/
def rewrite_multiple_sentences (ai : RewriteItem → Option (List Char))
    (items : List RewriteItem) : List RewriteResult :=
  items.map (fun it => ⟨it.sentence, rewrite_sentence_with_link ai it⟩)

/-- A successful AI answer honours the provider contract of keeping the
inserted anchor; failures (`none`) are always acceptable. -/
def aiOk (ai : RewriteItem → Option (List Char)) (it : RewriteItem) : Bool :=
  match ai it with
  | some r => decide (countSubstr r anchorMark ≠ 0)
  | none => true

theorem countSubstr_le_append (a b m : List Char) :
    countSubstr b m ≤ countSubstr (a ++ b) m := by
  induction a with
  | nil => exact Nat.le_refl _
  | cons c a ih =>
      rw [List.cons_append, countSubstr_cons]
      exact le_trans ih (Nat.le_add_left _ _)

theorem countSubstr_anchorOpen_pos (u X : List Char) :
    0 < countSubstr (anchorOpen u ++ X) anchorMark := by
  have hdecomp : anchorOpen u ++ X
      = '<' :: ("a href=".data ++ ('"' :: (u ++ ("\">".data ++ X)))) := by
    simp [anchorOpen]
  rw [hdecomp]
  apply countSubstr_pos_of_leads _ _ (by simp)
  have hx := leadsWith_self_append anchorMark ('"' :: (u ++ ("\">".data ++ X)))
  simpa [anchorMark] using hx

/-- The deterministic fallback produces an anchor tag whenever the keyword
occurs in the sentence. -/
theorem simple_link_insertion_has_anchor (s k u : List Char)
    (h : (findFirst s k).isSome = true) :
    countSubstr (simple_link_insertion s k u) anchorMark ≠ 0 := by
  obtain ⟨i, hi⟩ := Option.isSome_iff_exists.mp h
  have heq : simple_link_insertion s k u
      = s.take i ++ (anchorOpen u ++ ((s.drop i).take k.length
          ++ (anchorClose ++ s.drop (i + k.length)))) := by
    unfold simple_link_insertion
    rw [hi]
    simp [List.append_assoc]
  rw [heq]
  have h1 := countSubstr_anchorOpen_pos u
    ((s.drop i).take k.length ++ (anchorClose ++ s.drop (i + k.length)))
  have h2 := countSubstr_le_append (s.take i)
    (anchorOpen u ++ ((s.drop i).take k.length
      ++ (anchorClose ++ s.drop (i + k.length)))) anchorMark
  omega

/-- Claim C6: `rewrite_multiple_sentences` is failure-isolating: for every
batch of N items whose sentences contain their keyword (and whose AI
provider keeps the anchor when it succeeds), it returns exactly N
`{original, rewritten}` records in order, each rewritten text containing
an anchor tag; an item whose AI call fails is rewritten with the
deterministic insertion for that item only, never aborting the batch. -/
theorem rewrite_multiple_sentences_spec
    (ai : RewriteItem → Option (List Char)) (items : List RewriteItem)
    (h1 : ∀ it ∈ items, (findFirst it.sentence it.keyword).isSome = true)
    (h2 : ∀ it ∈ items, aiOk ai it = true) :
    (rewrite_multiple_sentences ai items).length = items.length
      ∧ (rewrite_multiple_sentences ai items).map (fun r => r.original)
          = items.map (fun it => it.sentence)
      ∧ (∀ r ∈ rewrite_multiple_sentences ai items,
          countSubstr r.rewritten anchorMark ≠ 0)
      ∧ (∀ it ∈ items, ai it = none →
          (⟨it.sentence, simple_link_insertion it.sentence it.keyword
              it.target_url⟩ : RewriteResult)
            ∈ rewrite_multiple_sentences ai items) := by
  refine ⟨by simp [rewrite_multiple_sentences],
    by simp [rewrite_multiple_sentences], ?_, ?_⟩
  · intro r hr
    rw [rewrite_multiple_sentences, List.mem_map] at hr
    obtain ⟨it, hit, rfl⟩ := hr
    have hai := h2 it hit
    cases hcase : ai it with
    | some v =>
        simp only [aiOk, hcase, decide_eq_true_eq] at hai
        show countSubstr (rewrite_sentence_with_link ai it) anchorMark ≠ 0
        simpa [rewrite_sentence_with_link, hcase] using hai
    | none =>
        show countSubstr (rewrite_sentence_with_link ai it) anchorMark ≠ 0
        rw [rewrite_sentence_with_link, hcase]
        exact simple_link_insertion_has_anchor _ _ _ (h1 it hit)
  · intro it hit hnone
    rw [rewrite_multiple_sentences, List.mem_map]
    exact ⟨it, hit, by rw [rewrite_sentence_with_link, hnone]⟩

/-- Witness for C6 at the inputs of `test_rewrite_multiple_sentences`,
with an AI provider that fails on every call. -/
theorem rewrite_multiple_sentences_spec_witness :
    (∀ it ∈ ([⟨"SEO helps with visibility".data, "SEO".data,
          "https://example.com/seo".data⟩,
        ⟨"Content marketing is effective".data, "content marketing".data,
          "https://example.com/content".data⟩] : List RewriteItem),
        (findFirst it.sentence it.keyword).isSome = true)
      ∧ (rewrite_multiple_sentences (fun _ => (none : Option (List Char)))
          [⟨"SEO helps with visibility".data, "SEO".data,
            "https://example.com/seo".data⟩,
          ⟨"Content marketing is effective".data, "content marketing".data,
            "https://example.com/content".data⟩]).length = 2 :=
  ⟨by decide,
    (rewrite_multiple_sentences_spec (fun _ => (none : Option (List Char)))
      [⟨"SEO helps with visibility".data, "SEO".data,
        "https://example.com/seo".data⟩,
      ⟨"Content marketing is effective".data, "content marketing".data,
        "https://example.com/content".data⟩] (by decide) (by decide)).1⟩

/-! ### Link opportunities, link suggestions, and the no-self-link
invariant -/

/-- One candidate internal link
(`app/internal_linker/models.py`, `InternalLinkOpportunity`);
`similarity_score` is only populated by the semantic producer. -/
structure InternalLinkOpportunity where
  from_article_id : Nat
  to_article_id : Nat
  keyword : List Char
  position : Option Nat
  context : Option (List Char)
  similarity_score : Option ℝ

/-- Modelled from the spec: `BasicInternalLinker.find_link_opportunities`
(`basic_linker.py`, absent from the source tree).  For every corpus
article other than the new article and every non-empty keyword among the
target keywords and the article's own keywords, every case-insensitive
occurrence of the keyword in that article's content yields one
opportunity pointing from the existing article to the new one; self-links
(the new article itself) and empty keywords are rejected before
emission. -/
def find_link_opportunities (corpus : List Article) (newId : Nat)
    (_newContent : List Char) (targetKeywords : List (List Char)) :
    List InternalLinkOpportunity :=
  (corpus.filter (fun a => decide (a.id ≠ newId))).flatMap (fun a =>
    ((targetKeywords ++ a.target_keywords).filter
        (fun kw => decide (kw ≠ []))).flatMap (fun kw =>
      (findKeywordMatches a.content kw).map (fun m =>
        ⟨a.id, newId, kw, some m.position, some m.context, none⟩)))

/-- Modelled from the spec:
`BasicInternalLinker.find_reverse_link_opportunities` (`basic_linker.py`,
absent from the source tree).  Keywords drawn from the existing articles
are searched for inside the new article's content, producing
opportunities pointing the new article at the existing ones; self-links
and empty keywords are rejected before emission. -/
def find_reverse_link_opportunities (corpus : List Article) (newId : Nat)
    (newContent : List Char) : List InternalLinkOpportunity :=
  (corpus.filter (fun a => decide (a.id ≠ newId))).flatMap (fun a =>
    (a.target_keywords.filter (fun kw => decide (kw ≠ []))).flatMap (fun kw =>
      (findKeywordMatches newContent kw).map (fun m =>
        ⟨newId, a.id, kw, some m.position, some m.context, none⟩)))

/-- Modelled from the spec:
`SemanticInternalLinker.find_semantic_link_opportunities`
(`semantic_linker.py`, absent from the source tree).  Intersects the
related-article set with keyword presence in the new content, emitting
one opportunity per (related article, matched keyword) pair with
`similarity_score` set to the article-level cosine similarity; self-links
and empty keywords are rejected before emission. -/
noncomputable def find_semantic_link_opportunities (corpus : List Article)
    (newId : Nat) (newContent : List Char)
    (targetKeywords : List (List Char)) (threshold : ℝ) :
    List InternalLinkOpportunity :=
  ((find_related_articles corpus newContent threshold).filter
      (fun r => decide (r.article_id ≠ newId))).flatMap (fun r =>
    (((targetKeywords ++ r.target_keywords.getD []).filter
          (fun kw => decide (kw ≠ []))).filter
        (fun kw => (findFirst newContent kw).isSome)).map (fun kw =>
      ⟨newId, r.article_id, kw, none, none, some r.similarity⟩))

/-- A suggested internal link with context
(`app/internal_linker/models.py`, `LinkSuggestion`). -/
structure LinkSuggestion where
  source_article_id : Nat
  target_article_id : Nat
  target_url : List Char
  anchor_text : List Char
  original_sentence : List Char
  rewritten_sentence : Option (List Char)
  similarity_score : ℝ
  link_type : List Char

/-- Modelled from the spec: a `LinkSuggestion` is built by the engine from
an emitted opportunity; the caller-supplied `urlOf` and `sentenceOf`
provide the target URL and the original sentence, the anchor text is the
opportunity's keyword, and `link_type` tags provenance (`semantic` when
an article-level similarity is attached, else `string_match`). -/
noncomputable def suggestionOf (urlOf : Nat → List Char)
    (sentenceOf : InternalLinkOpportunity → List Char)
    (opp : InternalLinkOpportunity) : LinkSuggestion :=
  ⟨opp.from_article_id, opp.to_article_id, urlOf opp.to_article_id,
    opp.keyword, sentenceOf opp, none, opp.similarity_score.getD 0,
    if opp.similarity_score.isSome then "semantic".data
    else "string_match".data⟩

/-- Modelled from the spec: the suggestions the engine produces for one
linking pass are built from the union of the lexical, reverse and
semantic opportunity sets. -/
noncomputable def engineSuggestions (corpus : List Article) (newId : Nat)
    (newContent : List Char) (targetKeywords : List (List Char))
    (threshold : ℝ) (urlOf : Nat → List Char)
    (sentenceOf : InternalLinkOpportunity → List Char) :
    List LinkSuggestion :=
  (find_link_opportunities corpus newId newContent targetKeywords
      ++ find_reverse_link_opportunities corpus newId newContent
      ++ find_semantic_link_opportunities corpus newId newContent
          targetKeywords threshold).map (suggestionOf urlOf sentenceOf)

theorem lexical_opps_inv (corpus : List Article) (newId : Nat)
    (newContent : List Char) (kws : List (List Char)) :
    ∀ opp ∈ find_link_opportunities corpus newId newContent kws,
      opp.from_article_id ≠ opp.to_article_id ∧ opp.keyword ≠ [] := by
  intro opp hopp
  unfold find_link_opportunities at hopp
  simp only [List.mem_flatMap, List.mem_filter, List.mem_map,
    decide_eq_true_eq] at hopp
  obtain ⟨a, ⟨ha, hane⟩, kw, ⟨hkw, hkwne⟩, m, hm, rfl⟩ := hopp
  exact ⟨hane, hkwne⟩

theorem reverse_opps_inv (corpus : List Article) (newId : Nat)
    (newContent : List Char) :
    ∀ opp ∈ find_reverse_link_opportunities corpus newId newContent,
      opp.from_article_id ≠ opp.to_article_id ∧ opp.keyword ≠ [] := by
  intro opp hopp
  unfold find_reverse_link_opportunities at hopp
  simp only [List.mem_flatMap, List.mem_filter, List.mem_map,
    decide_eq_true_eq] at hopp
  obtain ⟨a, ⟨ha, hane⟩, kw, ⟨hkw, hkwne⟩, m, hm, rfl⟩ := hopp
  exact ⟨Ne.symm hane, hkwne⟩

theorem semantic_opps_inv (corpus : List Article) (newId : Nat)
    (newContent : List Char) (kws : List (List Char)) (threshold : ℝ) :
    ∀ opp ∈ find_semantic_link_opportunities corpus newId newContent
        kws threshold,
      opp.from_article_id ≠ opp.to_article_id ∧ opp.keyword ≠ [] := by
  intro opp hopp
  unfold find_semantic_link_opportunities at hopp
  simp only [List.mem_flatMap, List.mem_filter, List.mem_map,
    decide_eq_true_eq] at hopp
  obtain ⟨r, ⟨hr, hrne⟩, kw, ⟨⟨hkw, hkwne⟩, hocc⟩, rfl⟩ := hopp
  exact ⟨Ne.symm hrne, hkwne⟩

/-- Claim C7: every `InternalLinkOpportunity` emitted by any of the
engine's producers — lexical (`find_link_opportunities`), reverse
(`find_reverse_link_opportunities`) and semantic
(`find_semantic_link_opportunities`) — satisfies
`from_article_id ≠ to_article_id` (no self-links) and has a non-empty
keyword, and every `LinkSuggestion` the engine builds from them satisfies
`source_article_id ≠ target_article_id` with a non-empty `anchor_text`,
for all inputs. -/
theorem engine_no_self_link (corpus : List Article) (newId : Nat)
    (newContent : List Char) (kws : List (List Char)) (threshold : ℝ)
    (urlOf : Nat → List Char)
    (sentenceOf : InternalLinkOpportunity → List Char) :
    (∀ opp ∈ find_link_opportunities corpus newId newContent kws,
        opp.from_article_id ≠ opp.to_article_id ∧ opp.keyword ≠ [])
      ∧ (∀ opp ∈ find_reverse_link_opportunities corpus newId newContent,
          opp.from_article_id ≠ opp.to_article_id ∧ opp.keyword ≠ [])
      ∧ (∀ opp ∈ find_semantic_link_opportunities corpus newId newContent
            kws threshold,
          opp.from_article_id ≠ opp.to_article_id ∧ opp.keyword ≠ [])
      ∧ (∀ sug ∈ engineSuggestions corpus newId newContent kws threshold
            urlOf sentenceOf,
          sug.source_article_id ≠ sug.target_article_id
            ∧ sug.anchor_text ≠ []) := by
  refine ⟨lexical_opps_inv corpus newId newContent kws,
    reverse_opps_inv corpus newId newContent,
    semantic_opps_inv corpus newId newContent kws threshold, ?_⟩
  intro sug hsug
  unfold engineSuggestions at hsug
  simp only [List.mem_map, List.mem_append] at hsug
  obtain ⟨opp, hopp, rfl⟩ := hsug
  have hinv : opp.from_article_id ≠ opp.to_article_id ∧ opp.keyword ≠ [] := by
    rcases hopp with (h | h) | h
    · exact lexical_opps_inv corpus newId newContent kws opp h
    · exact reverse_opps_inv corpus newId newContent opp h
    · exact semantic_opps_inv corpus newId newContent kws threshold opp h
  exact ⟨hinv.1, hinv.2⟩

/-- Witness for C7: one-article corpora whose contents contain the
keyword produce a lexical and a reverse opportunity, and neither is a
self-link. -/
theorem engine_no_self_link_witness :
    ((⟨2, 1, "seo".data, some 6, some "learn seo now".data, none⟩
          : InternalLinkOpportunity)
        ∈ find_link_opportunities
            [⟨2, "t".data, "learn seo now".data, [], []⟩] 1
            ("new content".data) [("seo".data)])
      ∧ ((2 : Nat) ≠ 1 ∧ "seo".data ≠ ([] : List Char))
      ∧ ((⟨1, 2, "seo".data, some 6, some "learn seo now".data, none⟩
          : InternalLinkOpportunity)
        ∈ find_reverse_link_opportunities
            [⟨2, "t".data, "c".data, [("seo".data)], []⟩] 1
            ("learn seo now".data))
      ∧ ((1 : Nat) ≠ 2 ∧ "seo".data ≠ ([] : List Char)) := by
  have hmem1 : (⟨2, 1, "seo".data, some 6, some "learn seo now".data, none⟩
        : InternalLinkOpportunity)
      ∈ find_link_opportunities
          [⟨2, "t".data, "learn seo now".data, [], []⟩] 1
          ("new content".data) [("seo".data)] := by
    have he : find_link_opportunities
        [⟨2, "t".data, "learn seo now".data, [], []⟩] 1
        ("new content".data) [("seo".data)]
        = [⟨2, 1, "seo".data, some 6, some "learn seo now".data, none⟩] := rfl
    rw [he]
    exact List.mem_singleton.mpr rfl
  have hmem2 : (⟨1, 2, "seo".data, some 6, some "learn seo now".data, none⟩
        : InternalLinkOpportunity)
      ∈ find_reverse_link_opportunities
          [⟨2, "t".data, "c".data, [("seo".data)], []⟩] 1
          ("learn seo now".data) := by
    have he : find_reverse_link_opportunities
        [⟨2, "t".data, "c".data, [("seo".data)], []⟩] 1
        ("learn seo now".data)
        = [⟨1, 2, "seo".data, some 6, some "learn seo now".data, none⟩] := rfl
    rw [he]
    exact List.mem_singleton.mpr rfl
  refine ⟨hmem1, ?_, hmem2, ?_⟩
  · exact (engine_no_self_link
      [⟨2, "t".data, "learn seo now".data, [], []⟩] 1
      ("new content".data) [("seo".data)] 0 (fun _ => []) (fun _ => [])).1
      _ hmem1
  · exact (engine_no_self_link
      [⟨2, "t".data, "c".data, [("seo".data)], []⟩] 1
      ("learn seo now".data) [("seo".data)] 0 (fun _ => []) (fun _ => [])).2.1
      _ hmem2

/-! ### Opportunity lifecycle (`InternalLinkMap`) -/

/-- Lifecycle states of a link opportunity: proposed in memory, recorded
as an `InternalLinkMap` row, applied to published content. -/
inductive LinkState where
  | proposed
  | recorded
  | applied
deriving DecidableEq

/-- The lifecycle-relevant columns of an `InternalLinkMap` row
(`app/models/internal_link_map.py`): `is_applied` defaults to false and
`applied_at` is nullable. -/
structure LinkMapRow where
  state : LinkState
  is_applied : Bool
  applied_at : Option Nat
deriving DecidableEq

/-- The in-memory proposed opportunity, before persistence. -/
def initialProposed : LinkMapRow := ⟨.proposed, false, none⟩

/-- Modelled from the spec: the opportunity lifecycle
`Proposed → Recorded → Applied` (no code performing these transitions is
present in the source tree; `internal_link_map.py` only declares the
columns, with `is_applied` defaulting to false and `applied_at`
nullable).  `record` persists a proposed opportunity as a row with
`is_applied = false` and `applied_at` unset; `applyLink` marks a recorded
row applied, setting `is_applied = true` and `applied_at`; there are no
other transitions. -/
inductive LinkStep : LinkMapRow → LinkMapRow → Prop where
  | record : LinkStep ⟨.proposed, false, none⟩ ⟨.recorded, false, none⟩
  | applyLink (t : Nat) :
      LinkStep ⟨.recorded, false, none⟩ ⟨.applied, true, some t⟩

/-- Claim C8: rows are created in the `Recorded` state with
`is_applied = false` and `applied_at` unset (the only transition out of
`Proposed` reaches `Recorded`, so no state is skipped);
`is_applied = true` together with a set `applied_at` occurs exactly in
the `Applied` state; and no transition leaves an `Applied` row
(`Applied` is terminal). -/
theorem link_lifecycle_spec (r r2 : LinkMapRow) (h : LinkStep r r2) :
    (r = initialProposed → r2 = ⟨.recorded, false, none⟩)
      ∧ r.state ≠ .applied
      ∧ (r2.is_applied = true ↔ r2.state = .applied)
      ∧ (r2.applied_at ≠ none ↔ r2.state = .applied) := by
  cases h with
  | record =>
      refine ⟨fun _ => rfl, by decide, by decide, by decide⟩
  | applyLink t =>
      refine ⟨fun he => absurd he (by decide), by decide, by simp, by simp⟩

/-- Witness for C8 at the concrete `applyLink` transition with timestamp
5. -/
theorem link_lifecycle_spec_witness :
    ((⟨.recorded, false, none⟩ : LinkMapRow) = initialProposed →
        (⟨.applied, true, some 5⟩ : LinkMapRow) = ⟨.recorded, false, none⟩)
      ∧ (⟨.recorded, false, none⟩ : LinkMapRow).state ≠ .applied
      ∧ ((⟨.applied, true, some 5⟩ : LinkMapRow).is_applied = true
          ↔ (⟨.applied, true, some 5⟩ : LinkMapRow).state = .applied)
      ∧ ((⟨.applied, true, some 5⟩ : LinkMapRow).applied_at ≠ none
          ↔ (⟨.applied, true, some 5⟩ : LinkMapRow).state = .applied) :=
  link_lifecycle_spec _ _ (LinkStep.applyLink 5)

/-! ### WordPress HTML sanitizer
(`app/services/publishing_service.py`, `clean_html_for_wordpress`) -/

/-- Python regex `\w` on the ASCII fragment: letters, digits,
underscore. -/
def isWordChar (c : Char) : Bool := c.isAlphanum || c = '_'

/-- Python regex `\s` on the ASCII fragment. -/
def isSpaceChar (c : Char) : Bool :=
  c = ' ' || c = '\t' || c = '\n' || c = '\x0b' || c = '\x0c' || c = '\r'

/-- A single or double quote, as in the character classes `["']`. -/
def isQuote (c : Char) : Bool := c = '"' || c = '\''

/-- Case-insensitive literal: when `pat` leads `s` (ignoring case), return
the remainder of `s`. -/
def stripCI (pat s : List Char) : Option (List Char) :=
  if matchesAt s pat 0 then some (s.drop pat.length) else none

/-- Word boundary `\b` after a word character: the next character, if any,
is not a word character. -/
def boundaryOk (s : List Char) : Bool :=
  match s with
  | [] => true
  | c :: _ => !(isWordChar c)

/-- Greedy `[^>]*>`: consume up to and including the first `>`; fail when there
is none. -/
def consumeToGt : List Char → Option (List Char)
  | [] => none
  | c :: rest => if c = '>' then some rest else consumeToGt rest

/-- Lazy `[\s\S]*?close`: drop through the first case-insensitive
occurrence of `close`; fail when there is none. -/
def dropThroughCI (close s : List Char) : Option (List Char) :=
  match findFirst s close with
  | none => none
  | some i => some (s.drop (i + close.length))

/-- Match `<tag\b[^>]*>[\s\S]*?</tag>` (case-insensitive) at the start of
`s`; on success return the replacement (empty) and the remainder. -/
def matchBlockAt (tag : List Char) (s : List Char) :
    Option (List Char × List Char) :=
  match stripCI (('<') :: tag) s with
  | none => none
  | some r1 =>
      if boundaryOk r1 then
        match consumeToGt r1 with
        | none => none
        | some r2 =>
            match dropThroughCI (('<') :: ('/') :: (tag ++ ['>'])) r2 with
            | none => none
            | some r3 => some ([], r3)
      else none

/-- Match `<embed\b[^>]*/?>` (case-insensitive) at the start of `s`. -/
def matchEmbedAt (s : List Char) : Option (List Char × List Char) :=
  match stripCI ("<embed".data) s with
  | none => none
  | some r1 =>
      if boundaryOk r1 then
        match consumeToGt r1 with
        | none => none
        | some r2 => some ([], r2)
      else none

/-- Match `\s+on\w+\s*=\s*["'][^"']*["']` (case-insensitive) at the start
of `s`. -/
def matchHandlerQuotedAt (s : List Char) : Option (List Char × List Char) :=
  let (ws, r1) := s.span isSpaceChar
  if ws.isEmpty then none
  else
    match stripCI ("on".data) r1 with
    | none => none
    | some r2 =>
        let (wd, r3) := r2.span isWordChar
        if wd.isEmpty then none
        else
          match r3.dropWhile isSpaceChar with
          | '=' :: r5 =>
              match r5.dropWhile isSpaceChar with
              | q :: r7 =>
                  if isQuote q then
                    match (r7.span (fun c => !(isQuote c))).2 with
                    | q2 :: r9 => if isQuote q2 then some ([], r9) else none
                    | [] => none
                  else none
              | [] => none
          | _ => none

/-- Match `\s+on\w+\s*=\s*[^\s>]+` (case-insensitive) at the start of
`s`. -/
def matchHandlerUnquotedAt (s : List Char) :
    Option (List Char × List Char) :=
  let (ws, r1) := s.span isSpaceChar
  if ws.isEmpty then none
  else
    match stripCI ("on".data) r1 with
    | none => none
    | some r2 =>
        let (wd, r3) := r2.span isWordChar
        if wd.isEmpty then none
        else
          match r3.dropWhile isSpaceChar with
          | '=' :: r5 =>
              let r6 := r5.dropWhile isSpaceChar
              let (val, r7) := r6.span
                (fun c => !(isSpaceChar c) && !(c = '>'))
              if val.isEmpty then none else some ([], r7)
          | _ => none

/-- Match `href\s*=\s*["']javascript:[^"']*["']` (case-insensitive) at the
start of `s`; the replacement is `href=""`. -/
def matchHrefJsAt (s : List Char) : Option (List Char × List Char) :=
  match stripCI ("href".data) s with
  | none => none
  | some r1 =>
      match r1.dropWhile isSpaceChar with
      | '=' :: r2 =>
          match r2.dropWhile isSpaceChar with
          | q :: r3 =>
              if isQuote q then
                match stripCI ("javascript:".data) r3 with
                | none => none
                | some r4 =>
                    match (r4.span (fun c => !(isQuote c))).2 with
                    | q2 :: r6 =>
                        if isQuote q2 then some ("href=\"\"".data, r6)
                        else none
                    | [] => none
              else none
          | [] => none
      | _ => none

/-- Driver for `re.sub`: scan left to right; at each position either apply the
matcher (emitting its replacement and resuming after the match, which in
`re.sub` is never rescanned) or keep the character and move on.  Every
matcher consumes at least one character, so fuel equal to the input
length suffices. -/
def reSubAux (m : List Char → Option (List Char × List Char)) :
    Nat → List Char → List Char
  | 0, s => s
  | _ + 1, [] => []
  | fuel + 1, c :: rest =>
      match m (c :: rest) with
      | some (rep, remainder) => rep ++ reSubAux m fuel remainder
      | none => c :: reSubAux m fuel rest

/-- One `re.sub(pattern, replacement, s)` pass. -/
def applySub (m : List Char → Option (List Char × List Char))
    (s : List Char) : List Char :=
  reSubAux m s.length s

/-- Python `str.strip()` on the ASCII fragment. -/
def stripEnds (s : List Char) : List Char :=
  ((s.dropWhile isSpaceChar).reverse.dropWhile isSpaceChar).reverse

/-- Translated from `app/services/publishing_service.py`,
`clean_html_for_wordpress` (lines 94-123): sequential single-pass regex
removals of script and style blocks, quoted and unquoted inline `on*`
handlers, `javascript:` hrefs, iframe and object blocks, and embed tags,
followed by `str.strip()`; a falsy (empty) input maps to the empty
string. -/
def clean_html_for_wordpress (s : List Char) : List Char :=
  if s = [] then []
  else
    let s1 := applySub (matchBlockAt ("script".data)) s
    let s2 := applySub (matchBlockAt ("style".data)) s1
    let s3 := applySub matchHandlerQuotedAt s2
    let s4 := applySub matchHandlerUnquotedAt s3
    let s5 := applySub matchHrefJsAt s4
    let s6 := applySub (matchBlockAt ("iframe".data)) s5
    let s7 := applySub (matchBlockAt ("object".data)) s6
    let s8 := applySub matchEmbedAt s7
    stripEnds s8

/-- Claim C9 (code bug): each removal rule is a single `re.sub` pass, so a
later rule's deletions can splice a full script element together out of
fragments the script pass could not see.  On the input
`<scr<embed>ipt>alert(1)</scr<embed>ipt>` the function returns
`<script>alert(1)</script>`: the output still contains a complete
`<script>...</script>` block, contradicting the claim and the function's
own docstring ("Removes potentially dangerous elements like script
tags").  The empty-input conjunct holds as claimed. -/
theorem clean_html_script_splice_bug :
    clean_html_for_wordpress ("<scr<embed>ipt>alert(1)</scr<embed>ipt>".data)
        = "<script>alert(1)</script>".data
      ∧ countSubstr
          (clean_html_for_wordpress
            ("<scr<embed>ipt>alert(1)</scr<embed>ipt>".data))
          ("<script>".data) ≠ 0
      ∧ clean_html_for_wordpress [] = [] :=
  ⟨by decide, by decide, rfl⟩

/-! ### Google Indexing API wrapper (`app/services/google_indexer.py`) -/

/-- A JSON-object response, modelled as a list of key/value entries with
string keys. -/
structure ApiDict where
  entries : List (List Char × List Char)

/-- Whether the response dict contains the given key. -/
def hasKey (d : ApiDict) (key : List Char) : Bool :=
  (d.entries.map Prod.fst).contains key

/-- The dict `{"error": msg}`, as returned on every failure path. -/
def errorDict (msg : List Char) : ApiDict := ⟨[("error".data, msg)]⟩

/-- The mock success payload `{"urlNotificationMetadata": {...}}`,
flattened to its identifying parts (URL and notification type). -/
def mockNotification (url ty : List Char) : ApiDict :=
  ⟨[("urlNotificationMetadata".data, url ++ ty)]⟩

/-- One recorded mock request (`_mock_requests` entry). -/
structure MockRequest where
  url : List Char
  ty : List Char

/-- Translated from `google_indexer.py`: the indexer state.  The external
`service.urlNotifications().publish(body={url, type}).execute()` call is
modelled as an optional function from URL and notification type to either
a response or a raised exception message (`Except`); `none` models
`_get_service()` returning no service (missing credentials or libraries,
or an initialization failure). -/
structure GoogleIndexer where
  mock_mode : Bool
  mock_requests : List MockRequest
  svc : Option (List Char → List Char → Except (List Char) ApiDict)

/-- Translated from `GoogleIndexer.request_indexing` (lines 89-131): mock
mode records the request and returns a canned payload; otherwise a
missing service yields `{"error": "Service not available"}` and a raised
exception `e` yields `{"error": str(e)}`; no path propagates the
exception. -/
def request_indexing (g : GoogleIndexer) (url : List Char) :
    ApiDict × GoogleIndexer :=
  if g.mock_mode then
    (mockNotification url ("URL_UPDATED".data),
      { g with mock_requests :=
          g.mock_requests ++ [⟨url, "URL_UPDATED".data⟩] })
  else
    match g.svc with
    | none => (errorDict ("Service not available".data), g)
    | some f =>
        match f url ("URL_UPDATED".data) with
        | .ok r => (r, g)
        | .error e => (errorDict e, g)

/-- Translated from `GoogleIndexer.request_removal` (lines 133-175): the
same shape as `request_indexing` with type `URL_DELETED`. -/
def request_removal (g : GoogleIndexer) (url : List Char) :
    ApiDict × GoogleIndexer :=
  if g.mock_mode then
    (mockNotification url ("URL_DELETED".data),
      { g with mock_requests :=
          g.mock_requests ++ [⟨url, "URL_DELETED".data⟩] })
  else
    match g.svc with
    | none => (errorDict ("Service not available".data), g)
    | some f =>
        match f url ("URL_DELETED".data) with
        | .ok r => (r, g)
        | .error e => (errorDict e, g)

/-- One entry of the batch result: the URL paired with its individual
result. -/
structure BatchEntry where
  url : List Char
  result : ApiDict

/-- The loop body of `batch_request_indexing`. -/
def batchStep (acc : List BatchEntry × GoogleIndexer) (url : List Char) :
    List BatchEntry × GoogleIndexer :=
  (acc.1 ++ [⟨url, (request_indexing acc.2 url).1⟩],
    (request_indexing acc.2 url).2)

/-- Translated from `GoogleIndexer.batch_request_indexing` (lines
206-222): sequentially request indexing for each URL, appending
`{"url": url, "result": result}` for each. -/
def batch_request_indexing (g : GoogleIndexer) (urls : List (List Char)) :
    List BatchEntry × GoogleIndexer :=
  urls.foldl batchStep ([], g)

theorem batch_foldl_acc (urls : List (List Char)) :
    ∀ (acc : List BatchEntry) (g : GoogleIndexer),
      urls.foldl batchStep (acc, g)
        = (acc ++ (urls.foldl batchStep ([], g)).1,
            (urls.foldl batchStep ([], g)).2) := by
  induction urls with
  | nil => intro acc g; simp
  | cons url rest ih =>
      intro acc g
      simp only [List.foldl_cons]
      rw [show batchStep (acc, g) url
            = (acc ++ [⟨url, (request_indexing g url).1⟩],
                (request_indexing g url).2) from rfl,
        show batchStep (([] : List BatchEntry), g) url
            = ([⟨url, (request_indexing g url).1⟩],
                (request_indexing g url).2) from rfl,
        ih (acc ++ [(⟨url, (request_indexing g url).1⟩ : BatchEntry)])
          (request_indexing g url).2,
        ih [(⟨url, (request_indexing g url).1⟩ : BatchEntry)]
          (request_indexing g url).2]
      simp

/-- Unfolding equation of the batch: the head entry pairs the first URL
with its own result and the tail is the batch over the updated state. -/
theorem batch_cons (g : GoogleIndexer) (url : List Char)
    (rest : List (List Char)) :
    batch_request_indexing g (url :: rest)
      = (⟨url, (request_indexing g url).1⟩
            :: (batch_request_indexing (request_indexing g url).2 rest).1,
          (batch_request_indexing (request_indexing g url).2 rest).2) := by
  unfold batch_request_indexing
  rw [List.foldl_cons,
    show batchStep (([] : List BatchEntry), g) url
        = ([⟨url, (request_indexing g url).1⟩], (request_indexing g url).2)
      from rfl,
    batch_foldl_acc rest [⟨url, (request_indexing g url).1⟩]
      (request_indexing g url).2]
  simp

theorem batch_urls (urls : List (List Char)) :
    ∀ g : GoogleIndexer,
      (batch_request_indexing g urls).1.map (fun b => b.url) = urls := by
  induction urls with
  | nil => intro g; rfl
  | cons url rest ih =>
      intro g
      rw [batch_cons]
      simp [ih]

/-- Claim C10: `request_indexing` and `request_removal` never propagate a
failure: with no available service they return a dict containing the
"error" key, and when the underlying API call raises `e` they return
`{"error": str(e)}` instead; `batch_request_indexing` returns exactly one
result per input URL, in the same input order, each pairing the URL with
its individual result. -/
theorem google_indexer_spec (g : GoogleIndexer) (url : List Char)
    (urls : List (List Char)) :
    (g.mock_mode = false → g.svc = none →
        hasKey (request_indexing g url).1 ("error".data) = true
          ∧ hasKey (request_removal g url).1 ("error".data) = true)
      ∧ (∀ f e, g.mock_mode = false → g.svc = some f →
          f url ("URL_UPDATED".data) = .error e →
            (request_indexing g url).1 = errorDict e)
      ∧ (∀ f e, g.mock_mode = false → g.svc = some f →
          f url ("URL_DELETED".data) = .error e →
            (request_removal g url).1 = errorDict e)
      ∧ (batch_request_indexing g urls).1.map (fun b => b.url) = urls
      ∧ (batch_request_indexing g urls).1.length = urls.length
      ∧ (∀ u rest, batch_request_indexing g (u :: rest)
          = (⟨u, (request_indexing g u).1⟩
                :: (batch_request_indexing (request_indexing g u).2 rest).1,
              (batch_request_indexing (request_indexing g u).2 rest).2)) := by
  refine ⟨?_, ?_, ?_, batch_urls urls g, ?_, fun u rest => batch_cons g u rest⟩
  · intro hm hn
    constructor
    · simp [request_indexing, hm, hn, hasKey, errorDict]
    · simp [request_removal, hm, hn, hasKey, errorDict]
  · intro f e hm hf he
    simp [request_indexing, hm, hf, he]
  · intro f e hm hf he
    simp [request_removal, hm, hf, he]
  · have h := batch_urls urls g
    simpa using congrArg List.length h

/-- Witness for C10: an indexer with no mock mode and no service returns
error dicts, an indexer whose call raises returns the exception text, and
a two-URL batch pairs the URLs in order. -/
theorem google_indexer_spec_witness :
    hasKey (request_indexing ⟨false, [], none⟩
          ("https://example.com/a".data)).1 ("error".data) = true
      ∧ hasKey (request_removal ⟨false, [], none⟩
          ("https://example.com/a".data)).1 ("error".data) = true
      ∧ (request_indexing
            ⟨false, [], some (fun _ _ => Except.error ("boom".data))⟩
            ("https://example.com/a".data)).1 = errorDict ("boom".data)
      ∧ (batch_request_indexing ⟨false, [], none⟩
          [("u1".data), ("u2".data)]).1.map (fun b => b.url)
          = [("u1".data), ("u2".data)] :=
  ⟨((google_indexer_spec ⟨false, [], none⟩ ("https://example.com/a".data)
      [("u1".data), ("u2".data)]).1 rfl rfl).1,
    ((google_indexer_spec ⟨false, [], none⟩ ("https://example.com/a".data)
      [("u1".data), ("u2".data)]).1 rfl rfl).2,
    (google_indexer_spec
      ⟨false, [], some (fun _ _ => Except.error ("boom".data))⟩
      ("https://example.com/a".data) []).2.1
      (fun _ _ => Except.error ("boom".data)) ("boom".data) rfl rfl rfl,
    (google_indexer_spec ⟨false, [], none⟩ ("https://example.com/a".data)
      [("u1".data), ("u2".data)]).2.2.2.1⟩

end AutoSeo
